import Mathlib

/-!
Verification of the meal_planner core (meal-planner-lib): a shallow
embedding of the data model (`data_types`), the constraint compiler and
solver-result extractor (`bl/constraints_solver.rs`), and the
nutrient-equivalence swapper (`bl/swap_products.rs`).

Modelling conventions:
* Rust `f32`/`f64` arithmetic is modelled exactly over `ℚ` (the idealised
  real-number reading of the code; float rounding is out of model).
* Rust `u16` values are modelled as `ℕ`; a float-to-`u16` `as` cast is the
  saturating truncation toward zero (Rust semantics since 1.45), and `u16`
  addition wraps modulo 2^16 (release-profile semantics).
* Rust `HashMap` fields are modelled as association lists; only `get`,
  `contains_key` and `insert` are exercised by the verified code paths.
* The external `microlp` crate is modelled abstractly: a `Problem` records
  the added variables and linear constraints, and `solve` is an arbitrary
  oracle argument producing either a value assignment or one of the error
  kinds the repository's `match` distinguishes.
-/

namespace MealPlanner

/-- Macro-nutrient kinds, from `data_types/macro_elements.rs`. -/
inductive MacroElementsType where
  | Fat
  | SaturatedFat
  | Carbs
  | Sugar
  | Protein
  | Calories
  deriving DecidableEq, Repr

/-- Micro-nutrient kinds, from `data_types/micro_nutrients.rs`. -/
inductive MicroNutrientsType where
  | Fiber
  | Zinc
  | Sodium
  | Alcohol
  deriving DecidableEq, Repr

/-- Tagged nutrient target, from `data_types/constraints/nutrient_constraint.rs`. -/
inductive NutrientType where
  | Macro (m : MacroElementsType)
  | Micro (m : MicroNutrientsType)
  deriving DecidableEq, Repr

/-- Unit identifiers, from `data_types/product.rs`. -/
inductive AllowedUnitsType where
  | Gram
  | Piece
  | Cup
  | Tablespoon
  | Teaspoon
  | Box
  | Custom
  deriving DecidableEq, Repr

/-- Conversion rule of an allowed unit (`UnitData` in `data_types/product.rs`);
both fields are `u16` in the source. -/
structure UnitData where
  amount : ℕ
  divider : ℕ
  deriving DecidableEq, Repr

/-- Per-100g macro-nutrient record (`MacroElements`): the source stores one
`f32` per `MacroElementsType` key, `Calories` included. -/
structure MacroElements where
  fat : ℚ
  saturatedFat : ℚ
  carbs : ℚ
  sugar : ℚ
  protein : ℚ
  calories : ℚ
  deriving DecidableEq, Repr

/-- Lookup of a stored macro value (the `Index` impl on `MacroElements`). -/
def MacroElements.get (me : MacroElements) : MacroElementsType → ℚ
  | .Fat => me.fat
  | .SaturatedFat => me.saturatedFat
  | .Carbs => me.carbs
  | .Sugar => me.sugar
  | .Protein => me.protein
  | .Calories => me.calories

/-- Constructor `MacroElements::new`: stores the five settable values and the
derived `calories = fat*9 + carbs*4 + protein*4` (`recompute_calories`). -/
def MacroElements.new (fat saturatedFat carbs sugar protein : ℚ) : MacroElements :=
  { fat := fat, saturatedFat := saturatedFat, carbs := carbs, sugar := sugar,
    protein := protein, calories := fat * 9 + carbs * 4 + protein * 4 }

/-- Per-100g micro-nutrient record (`MicroNutrients`): each entry is
independently present-or-absent (`Option<f32>` per key; the `Index` impl
returns `None` for a missing key). -/
structure MicroNutrients where
  fiber : Option ℚ
  zinc : Option ℚ
  sodium : Option ℚ
  alcohol : Option ℚ
  deriving DecidableEq, Repr

/-- Empty micro-nutrient record (`MicroNutrients::default`, an empty map:
every lookup yields `None`). -/
def MicroNutrients.default : MicroNutrients :=
  { fiber := none, zinc := none, sodium := none, alcohol := none }

/-- Lookup of a micro value (the `Index` impl on `MicroNutrients`). -/
def MicroNutrients.get (mn : MicroNutrients) : MicroNutrientsType → Option ℚ
  | .Fiber => mn.fiber
  | .Zinc => mn.zinc
  | .Sodium => mn.sodium
  | .Alcohol => mn.alcohol

/-- Allowed-unit table of a product: the source's
`HashMap<AllowedUnitsType, UnitData>` modelled as an association list. -/
abbrev AllowedUnits := List (AllowedUnitsType × UnitData)

/-- Map lookup (`HashMap::get`). -/
def AllowedUnits.get : AllowedUnits → AllowedUnitsType → Option UnitData
  | [], _ => none
  | (k, v) :: rest, key => if k = key then some v else AllowedUnits.get rest key

/-- Key-membership test (`HashMap::contains_key`). -/
def AllowedUnits.contains_key (m : AllowedUnits) (key : AllowedUnitsType) : Bool :=
  (m.get key).isSome

/-- Map insertion (`HashMap::insert`): an existing binding of the key is
replaced by the new value, otherwise the pair is added. The model keeps the
new binding in front and drops any old binding of the key, which is
observably the same through `get`/`contains_key` (the map's internal order
is unspecified and never observed by the verified code). -/
def AllowedUnits.insert (m : AllowedUnits) (key : AllowedUnitsType) (v : UnitData) :
    AllowedUnits :=
  (key, v) :: m.filter fun p => p.1 ≠ key

/-- Product record, from `data_types/product.rs`. -/
structure Product where
  name : String
  brand : Option String
  macro_elements : MacroElements
  micro_nutrients : MicroNutrients
  allowed_units : AllowedUnits
  deriving DecidableEq, Repr

/-- Constructor `Product::new`: inserts `DEFAULT_ALLOWED_UNITS`
(`Gram ↦ {amount: 1, divider: 1}`) into the supplied allowed-unit table
before storing it. -/
def Product.new (name : String) (brand : Option String) (macro_elements : MacroElements)
    (micro_nutrients : MicroNutrients) (allowed_units : AllowedUnits) : Product :=
  { name := name, brand := brand, macro_elements := macro_elements,
    micro_nutrients := micro_nutrients,
    allowed_units := allowed_units.insert .Gram ⟨1, 1⟩ }

/-- Product identity `Product::id`: `"name (brand)"` when a non-empty brand
is present, else `"name"`. -/
def Product.id (p : Product) : String :=
  match p.brand with
  | some brand => if brand.isEmpty then p.name else p.name ++ " (" ++ brand ++ ")"
  | none => p.name

/-- Nutrient lookup `Product::get_nutrient_amount`: a macro value is always
present, a micro value only when stored. -/
def Product.get_nutrient_amount (p : Product) : NutrientType → Option ℚ
  | .Macro m => some (p.macro_elements.get m)
  | .Micro m => p.micro_nutrients.get m

/-- Product-quantity constraint, from
`data_types/constraints/product_constraint.rs`; bounds are `Option<u16>`. -/
structure ProductConstraint where
  food : Product
  low_bound : Option ℕ
  up_bound : Option ℕ
  unit : AllowedUnitsType
  deriving DecidableEq, Repr

/-- Validating constructor `ProductConstraint::new`: `None` when the unit is
absent from the product's allowed-unit table, or when both bounds are given
with `low > up`. -/
def ProductConstraint.new (food : Product) (low_bound up_bound : Option ℕ)
    (unit : AllowedUnitsType) : Option ProductConstraint :=
  -- the source returns `None` early when `!food.allowed_units.contains_key(&unit)`
  if food.allowed_units.contains_key unit then
    match low_bound, up_bound with
    | some lb, some ub =>
      if lb > ub then none
      else some { food := food, low_bound := low_bound, up_bound := up_bound, unit := unit }
    | _, _ => some { food := food, low_bound := low_bound, up_bound := up_bound, unit := unit }
  else
    none

/-- Nutrient-bound constraint, from
`data_types/constraints/nutrient_constraint.rs`; bounds are `Option<f32>`. -/
structure NutrientConstraint where
  element : NutrientType
  min : Option ℚ
  max : Option ℚ
  deriving DecidableEq, Repr

/-- Validating constructor `NutrientConstraint::new`: `None` when a given
bound is negative or when both are given with `min > max`. -/
def NutrientConstraint.new (element : NutrientType) (min max : Option ℚ) :
    Option NutrientConstraint :=
  match min with
  | some min_val => if min_val < 0 then none else
    match max with
    | some max_val =>
      if max_val < 0 then none
      else if min_val > max_val then none
      else some { element := element, min := min, max := max }
    | none => some { element := element, min := min, max := max }
  | none =>
    match max with
    | some max_val =>
      if max_val < 0 then none
      else some { element := element, min := min, max := max }
    | none => some { element := element, min := min, max := max }

/-- Meal constraint, from `data_types/constraints/meal_constraint.rs`. -/
structure MealConstraint where
  products : List ProductConstraint
  nutrients : List NutrientConstraint
  deriving DecidableEq, Repr

/-- Day plan constraint, from `data_types/constraints/day_plan_constraint.rs`.
The source's `meals` field is a `HashMap<String, MealConstraint>`; it is
modelled as an association list enumerated in list order (the real map's
iteration order is unspecified). -/
structure DayMealPlanConstraint where
  meals : List (String × MealConstraint)
  nutrients : List NutrientConstraint
  deriving DecidableEq, Repr

/-- Debug representation (`{:?}`) of a macro kind: the variant name. -/
def MacroElementsType.debugStr : MacroElementsType → String
  | .Fat => "Fat"
  | .SaturatedFat => "SaturatedFat"
  | .Carbs => "Carbs"
  | .Sugar => "Sugar"
  | .Protein => "Protein"
  | .Calories => "Calories"

/-- Debug representation (`{:?}`) of a micro kind: the variant name. -/
def MicroNutrientsType.debugStr : MicroNutrientsType → String
  | .Fiber => "Fiber"
  | .Zinc => "Zinc"
  | .Sodium => "Sodium"
  | .Alcohol => "Alcohol"

/-- Debug representation (`{:?}`) of a `NutrientType` value. -/
def NutrientType.debugStr : NutrientType → String
  | .Macro m => "Macro(" ++ m.debugStr ++ ")"
  | .Micro m => "Micro(" ++ m.debugStr ++ ")"

/-- Debug representation (`{:?}`) of a unit identifier: the variant name. -/
def AllowedUnitsType.debugStr : AllowedUnitsType → String
  | .Gram => "Gram"
  | .Piece => "Piece"
  | .Cup => "Cup"
  | .Tablespoon => "Tablespoon"
  | .Teaspoon => "Teaspoon"
  | .Box => "Box"
  | .Custom => "Custom"

/-- Unit-quantity fraction, from `bl/constraints_solver.rs`; both fields are
`u16` in the source. -/
structure Fraction where
  numerator : ℕ
  denominator : ℕ
  deriving DecidableEq, Repr

/-- Rust float-to-`u16` `as` cast: truncation toward zero, saturating at the
type's bounds (0 below, 65535 above). On non-negative values truncation
coincides with the floor. -/
def float_to_u16 (q : ℚ) : ℕ :=
  min (⌊q⌋.toNat) 65535


namespace ProductSwapper

/-- Swap calculator `ProductSwapper::get_amount_of_swapped_product`
(`bl/swap_products.rs`). The source computes
`calculated_amout * f32::from(unit_size.divider) / f32::from(unit_size.amount).floor()`;
`.floor()` binds to `f32::from(unit_size.amount)` alone and is the identity
on the integral `amount`, so it is omitted here. The `+ 1` on the low
numerator is `u16` addition, which wraps modulo 2^16 (release profile). -/
def get_amount_of_swapped_product (input : Product) (amount : ℚ) (output : Product)
    (nutrient_equivalent : NutrientType) (allowed_units : AllowedUnitsType) :
    Except String (Fraction × Fraction) :=
  match input.get_nutrient_amount nutrient_equivalent with
  | none => .error ("Input product '" ++ input.id ++ "' does not have nutrient '" ++
      nutrient_equivalent.debugStr ++ "'")
  | some nutrient_amount =>
    match output.get_nutrient_amount nutrient_equivalent with
    | none => .error ("Output product '" ++ output.id ++ "' does not have nutrient '" ++
        nutrient_equivalent.debugStr ++ "'")
    | some nutrient_amount_output =>
      match input.allowed_units.get allowed_units with
      | none => .error ("Input product '" ++ input.id ++ "' does not have allowed unit '" ++
          allowed_units.debugStr ++ "'")
      | some unit_size =>
        let calculated_amout := amount * nutrient_amount / nutrient_amount_output
        let low_numerator := float_to_u16 (calculated_amout * unit_size.divider / unit_size.amount)
        .ok (⟨low_numerator, unit_size.divider⟩,
             ⟨(low_numerator + 1) % 65536, unit_size.divider⟩)

/-- Grams-only convenience `ProductSwapper::get_grams_of_swapped_product`:
swaps at the `Gram` unit and collapses the two fractions with
`(numerator / denominator).floor()` resp. `.ceil()`, each cast to `u16`. -/
def get_grams_of_swapped_product (input : Product) (amount : ℚ) (output : Product)
    (nutrient_equivalent : NutrientType) : Except String (ℕ × ℕ) :=
  match get_amount_of_swapped_product input amount output nutrient_equivalent .Gram with
  | .error e => .error e
  | .ok (low, high) =>
    .ok (float_to_u16 ((⌊(low.numerator : ℚ) / (low.denominator : ℚ)⌋ : ℤ) : ℚ),
         float_to_u16 ((⌈(high.numerator : ℚ) / (high.denominator : ℚ)⌉ : ℤ) : ℚ))

end ProductSwapper

/-- Product with one fat-per-100g unit, used as a concrete swap input. -/
def swapProductOne : Product :=
  Product.new "SwapIn" none (MacroElements.new 1 0 0 0 0) MicroNutrients.default []

/-- Product with one fat-per-100g unit, used as a concrete swap output. -/
def swapProductTwo : Product :=
  Product.new "SwapOut" none (MacroElements.new 1 0 0 0 0) MicroNutrients.default []

/-- Optimization direction of the external `microlp` crate. -/
inductive OptimizationDirection where
  | Minimize
  | Maximize
  deriving DecidableEq, Repr

/-- Requested direction, from `bl/constraints_solver.rs` (`MinOrMax`). -/
inductive MinOrMax where
  | Min
  | Max
  deriving DecidableEq, Repr

/-- Mapping of the requested direction to the solver's direction, the `match`
inside `ConstraintsSolver::new`. -/
def MinOrMax.direction : MinOrMax → OptimizationDirection
  | .Min => .Minimize
  | .Max => .Maximize

/-- Comparison operator of a `microlp` linear constraint. -/
inductive ComparisonOp where
  | Eq
  | Le
  | Ge
  deriving DecidableEq, Repr

/-- Record of one decision variable added to the `microlp` problem: its
objective coefficient, bounds, and whether it was added with
`add_integer_var`. -/
structure VarData where
  objective : ℚ
  low : ℚ
  high : ℚ
  integer : Bool
  deriving DecidableEq, Repr

/-- Record of one linear constraint added to the `microlp` problem: linear
terms as (variable index, coefficient) pairs, operator and right-hand side. -/
structure LinConstraint where
  terms : List (ℕ × ℚ)
  op : ComparisonOp
  rhs : ℚ
  deriving DecidableEq, Repr

/-- Test whether a constraint is the equality kind. -/
def LinConstraint.isEqC (c : LinConstraint) : Bool :=
  match c.op with
  | .Eq => true
  | _ => false

/-- Test whether a constraint is the ≥ kind. -/
def LinConstraint.isGeC (c : LinConstraint) : Bool :=
  match c.op with
  | .Ge => true
  | _ => false

/-- Abstract model of a `microlp::Problem`: the direction it was created
with and the variables/constraints added so far, in order. Variables are
identified by their insertion index. -/
structure Problem where
  direction : OptimizationDirection
  vars : List VarData
  constraints : List LinConstraint
  deriving DecidableEq, Repr

/-- Fresh problem (`Problem::new`). -/
def Problem.new (direction : OptimizationDirection) : Problem :=
  { direction := direction, vars := [], constraints := [] }

/-- Continuous variable registration (`Problem::add_var`): returns the new
problem and the fresh variable's index. -/
def Problem.add_var (p : Problem) (objective : ℚ) (bounds : ℚ × ℚ) : Problem × ℕ :=
  ({ p with vars := p.vars ++ [⟨objective, bounds.1, bounds.2, false⟩] }, p.vars.length)

/-- Integer variable registration (`Problem::add_integer_var`). -/
def Problem.add_integer_var (p : Problem) (objective : ℚ) (bounds : ℚ × ℚ) : Problem × ℕ :=
  ({ p with vars := p.vars ++ [⟨objective, bounds.1, bounds.2, true⟩] }, p.vars.length)

/-- Constraint registration (`Problem::add_constraint`). -/
def Problem.add_constraint (p : Problem) (terms : List (ℕ × ℚ)) (op : ComparisonOp)
    (rhs : ℚ) : Problem :=
  { p with constraints := p.constraints ++ [⟨terms, op, rhs⟩] }

/-- Failure kinds of `microlp`'s solve, as distinguished by the repository's
`match`: `Infeasible`, `Unbounded`, and any other failure carrying its debug
representation (the `_ => format!("Solving error: {e:?}")` arm). -/
inductive SolverError where
  | Infeasible
  | Unbounded
  | Other (debug_repr : String)
  deriving DecidableEq, Repr

/-- Leaf of the variable tree (`ProductVariable` in
`bl/constraints_solver.rs`): the two solver variables allocated for one
product occurrence, stored as indices. -/
structure ProductVariable where
  name : String
  product : Product
  unit : AllowedUnitsType
  variable_gram : ℕ
  variable_unit_divided : ℕ
  deriving DecidableEq, Repr

/-- Node of the variable tree (`ProductEntry`). The source's `Subcontainer`
variant wraps a `ProductsContainer { name, inner }`; the two fields are
inlined here because Lean cannot mutually define the structure with the
inductive. -/
inductive ProductEntry where
  | Variable (v : ProductVariable)
  | Subcontainer (name : String) (inner : List ProductEntry)
  deriving Repr

/-- Root container of the variable tree (`ProductsContainer`). -/
structure ProductsContainer where
  name : String
  inner : List ProductEntry

mutual

/-- Leaf collection `ProductEntry::get_all_product_variables`: flattens a
subtree to its product leaves, in order. -/
def ProductEntry.get_all_product_variables : ProductEntry → List ProductVariable
  | .Variable v => [v]
  | .Subcontainer _ inner => getAllProductVariablesList inner

/-- Leaf collection over a list of entries (the `flat_map` in the source). -/
def getAllProductVariablesList : List ProductEntry → List ProductVariable
  | [] => []
  | e :: es => e.get_all_product_variables ++ getAllProductVariablesList es

end

/-- Solution tree node (`SolutionEntry` in `bl/constraints_solver.rs`). -/
inductive SolutionEntry where
  | Week (entries : List SolutionEntry)
  | Day (name : String) (entries : List SolutionEntry)
  | Meal (name : String) (entries : List SolutionEntry)
  | Product (product : Product) (amount_grams : ℚ) (unit : AllowedUnitsType)
      (amount_unit : Fraction)
  deriving Repr

/-- Solution wrapper (`Solution`). -/
structure Solution where
  solution : SolutionEntry

/-- Compiler state (`ConstraintsSolver`): the problem under construction,
the variable tree (the source's `variables` field — renamed because
`variables` is reserved in Lean), and the nutrient that drives the
objective. -/
structure ConstraintsSolver where
  problem : Problem
  vtree : ProductsContainer
  nutrient_to_optimize : NutrientType

/-- Constructor `ConstraintsSolver::new`. -/
def ConstraintsSolver.new (min_or_max : MinOrMax) (nutrient_to_optimize : NutrientType) :
    ConstraintsSolver :=
  { problem := Problem.new min_or_max.direction,
    vtree := { name := "root", inner := [] },
    nutrient_to_optimize := nutrient_to_optimize }

/-- Per-leaf compilation `ConstraintsSolver::add_product_constraints`: adds
the continuous grams variable (objective `nutrient_per_100g * 0.01`, bounds
`[low_bound.unwrap_or(0), up_bound.unwrap_or(u16::MAX)]`), the integer
unit-count variable (objective 0, bounds `[0, u16::MAX]`) and the equality
`unit_var * (divider * amount) - gram_var = 0`. The source `.unwrap()`s the
allowed-unit lookup; the model uses a `{0, 0}` placeholder there, and the
theorems assume the `ProductConstraint::new` invariant that makes the
lookup succeed. -/
def ConstraintsSolver.add_product_constraints (s : ConstraintsSolver) (product : Product)
    (product_constraint : ProductConstraint) : ConstraintsSolver × ProductVariable :=
  let nutrient_amount := (product.get_nutrient_amount s.nutrient_to_optimize).getD 0
  let pg := s.problem.add_var (nutrient_amount * (1 / 100))
    (((product_constraint.low_bound.getD 0 : ℕ) : ℚ),
     ((product_constraint.up_bound.getD 65535 : ℕ) : ℚ))
  let pu := pg.1.add_integer_var 0 (0, 65535)
  let unit_data := (product.allowed_units.get product_constraint.unit).getD ⟨0, 0⟩
  let p3 := pu.1.add_constraint
    [(pu.2, (unit_data.divider : ℚ) * (unit_data.amount : ℚ)), (pg.2, -1)] .Eq 0
  ({ s with problem := p3 },
   { name := product.id, product := product, unit := product_constraint.unit,
     variable_gram := pg.2, variable_unit_divided := pu.2 })

/-- Per-scope nutrient compilation
`ConstraintsSolver::add_nutrient_constraints`: sums
`gram_var * (nutrient_per_100g * 0.01)` over every leaf in scope (an absent
micro nutrient contributes a 0 coefficient via `unwrap_or(0.0)`), adds a ≥
constraint with right side `min.unwrap_or(0.0)` unconditionally, and a ≤
constraint exactly when `max` is present. -/
def ConstraintsSolver.add_nutrient_constraints (s : ConstraintsSolver)
    (nutrient_constr : NutrientConstraint) (products : List ProductEntry) :
    ConstraintsSolver :=
  let product_macros := (getAllProductVariablesList products).map fun p =>
    (p.variable_gram, ((p.product.get_nutrient_amount nutrient_constr.element).getD 0) * (1 / 100))
  let p1 := s.problem.add_constraint product_macros .Ge (nutrient_constr.min.getD 0)
  let p2 := match nutrient_constr.max with
    | some max_val => p1.add_constraint product_macros .Le max_val
    | none => p1
  { s with problem := p2 }

/-- The product loop of `ConstraintsSolver::add_meal_constraints`: compiles
each product constraint in order, collecting the leaf entries. -/
def ConstraintsSolver.add_meal_products (s : ConstraintsSolver) :
    List ProductConstraint → ConstraintsSolver × List ProductEntry
  | [] => (s, [])
  | pc :: rest =>
    let sv := s.add_product_constraints pc.food pc
    let srest := sv.1.add_meal_products rest
    (srest.1, .Variable sv.2 :: srest.2)

/-- The nutrient loop shared by `add_meal_constraints` and
`create_day_constraints`: compiles each nutrient constraint over the
already-collected entries of the scope. -/
def ConstraintsSolver.add_nutrients_loop (s : ConstraintsSolver) :
    List NutrientConstraint → List ProductEntry → ConstraintsSolver
  | [], _ => s
  | nc :: rest, entries => (s.add_nutrient_constraints nc entries).add_nutrients_loop rest entries

/-- Meal compilation `ConstraintsSolver::add_meal_constraints`: products
first (they allocate the variables), then the meal-scoped nutrient
constraints over exactly this meal's entries. -/
def ConstraintsSolver.add_meal_constraints (s : ConstraintsSolver) (meal : MealConstraint) :
    ConstraintsSolver × List ProductEntry :=
  let sp := s.add_meal_products meal.products
  (sp.1.add_nutrients_loop meal.nutrients sp.2, sp.2)

/-- The meal loop of `ConstraintsSolver::create_day_constraints`: compiles
each meal, wrapping its entries in a named subcontainer. -/
def ConstraintsSolver.add_meals_loop (s : ConstraintsSolver) :
    List (String × MealConstraint) → ConstraintsSolver × List ProductEntry
  | [] => (s, [])
  | (meal_name, meal) :: rest =>
    let sm := s.add_meal_constraints meal
    let srest := sm.1.add_meals_loop rest
    (srest.1, .Subcontainer meal_name sm.2 :: srest.2)

/-- Day compilation `ConstraintsSolver::create_day_constraints`: all meals
first, then the day-scoped nutrient constraints over all collected
entries. -/
def ConstraintsSolver.create_day_constraints (s : ConstraintsSolver)
    (day_constraints : DayMealPlanConstraint) : ConstraintsSolver × List ProductEntry :=
  let sm := s.add_meals_loop day_constraints.meals
  (sm.1.add_nutrients_loop day_constraints.nutrients sm.2, sm.2)

/-- Top-level compilation `ConstraintsSolver::create_constraints`: wraps the
day's entries in a subcontainer hard-coded as "Day1" and pushes it onto the
root container. -/
def ConstraintsSolver.create_constraints (s : ConstraintsSolver)
    (day_constraints : DayMealPlanConstraint) : ConstraintsSolver :=
  let sd := s.create_day_constraints day_constraints
  let root : ProductsContainer :=
    { name := sd.1.vtree.name
      inner := sd.1.vtree.inner ++ [ProductEntry.Subcontainer "Day1" sd.2] }
  { sd.1 with vtree := root }

/-- Leaf extraction in `ConstraintsSolver::solver_solution_to_output`: the
solved grams value is read as-is, the solved unit-count value is cast to
`u16` (truncation), and the denominator is the requested unit's divider from
the product's allowed-unit table (`.unwrap()` in the source, `{0, 0}`
placeholder here — compiled trees always have the entry). A `Subcontainer`
at leaf position panics in the source; the model returns a junk marker that
compiled trees never produce. -/
def productEntryToProductOutput (vals : ℕ → ℚ) : ProductEntry → SolutionEntry
  | .Variable v =>
    .Product v.product (vals v.variable_gram) v.unit
      ⟨float_to_u16 (vals v.variable_unit_divided),
       ((v.product.allowed_units.get v.unit).getD ⟨0, 0⟩).divider⟩
  | .Subcontainer _ _ => .Meal "PANIC: Expected product variable" []

/-- Meal extraction in `solver_solution_to_output`; a `Variable` at meal
position panics in the source (junk marker here). -/
def productEntryToMealOutput (vals : ℕ → ℚ) : ProductEntry → SolutionEntry
  | .Subcontainer name inner => .Meal name (inner.map (productEntryToProductOutput vals))
  | .Variable _ => .Day "PANIC: Expected meal container" []

/-- Day extraction in `solver_solution_to_output`; a `Variable` at day
position panics in the source (junk marker here). -/
def productEntryToDayOutput (vals : ℕ → ℚ) : ProductEntry → SolutionEntry
  | .Subcontainer name inner => .Day name (inner.map (productEntryToMealOutput vals))
  | .Variable _ => .Week []

/-- Extractor `ConstraintsSolver::solver_solution_to_output`: walks the
variable tree in build order and wraps the days in a single `Week` node.
The solved assignment is the function from variable index to value
(`Solution::var_value` of `microlp`). -/
def ConstraintsSolver.solver_solution_to_output (s : ConstraintsSolver) (vals : ℕ → ℚ) :
    Solution :=
  { solution := .Week (s.vtree.inner.map (productEntryToDayOutput vals)) }

/-- Entry point `ConstraintsSolver::solve_day`: compiles the day, runs the
solver (modelled as an oracle argument in place of `microlp`'s
`Problem::solve`), and classifies the outcome. -/
def ConstraintsSolver.solve_day (s : ConstraintsSolver)
    (day_constraints : DayMealPlanConstraint)
    (solver : Problem → Except SolverError (ℕ → ℚ)) : Except String Solution :=
  let s1 := s.create_constraints day_constraints
  match solver s1.problem with
  | .ok sol => .ok (s1.solver_solution_to_output sol)
  | .error .Infeasible => .error "Constraints are infeasible"
  | .error .Unbounded => .error "Problem is unbounded"
  | .error (.Other dbg) => .error ("Solving error: " ++ dbg)

/-- Specified content of a leaf's continuous grams variable: objective
`nutrient_per_100g / 100`, bounds `[low_bound or 0, up_bound or 65535]`. -/
def gramVarData (nut : NutrientType) (pc : ProductConstraint) : VarData :=
  { objective := ((pc.food.get_nutrient_amount nut).getD 0) * (1 / 100),
    low := ((pc.low_bound.getD 0 : ℕ) : ℚ),
    high := ((pc.up_bound.getD 65535 : ℕ) : ℚ),
    integer := false }

/-- Specified content of a leaf's integer unit-count variable: bounds
`[0, 65535]`. -/
def unitVarData : VarData :=
  { objective := 0, low := 0, high := 65535, integer := true }

/-- The allowed-unit entry of a product constraint's requested unit on its
product. -/
def leafUnitData (pc : ProductConstraint) : UnitData :=
  (pc.food.allowed_units.get pc.unit).getD ⟨0, 0⟩

/-- Specified equality constraint of the leaf whose grams variable has index
`n` (its unit-count variable has index `n + 1`):
`unit_count * (divider * amount) - grams = 0`. -/
def leafEqConstraint (n : ℕ) (pc : ProductConstraint) : LinConstraint :=
  { terms := [(n + 1, ((leafUnitData pc).divider : ℚ) * ((leafUnitData pc).amount : ℚ)),
              (n, -1)],
    op := .Eq, rhs := 0 }

/-- Specified variable list of a run of leaves: one grams variable and one
unit-count variable per leaf, in leaf order. -/
def expectedVars (nut : NutrientType) : List ProductConstraint → List VarData
  | [] => []
  | pc :: rest => gramVarData nut pc :: unitVarData :: expectedVars nut rest

/-- Specified equality constraints of a run of leaves whose first grams
variable has index `n`: exactly one per leaf. -/
def expectedEqs (n : ℕ) : List ProductConstraint → List LinConstraint
  | [] => []
  | pc :: rest => leafEqConstraint n pc :: expectedEqs (n + 2) rest

/-- Specified leaf records of a run of leaves starting at variable index
`n`. -/
def expectedLeaves (n : ℕ) : List ProductConstraint → List ProductVariable
  | [] => []
  | pc :: rest =>
    { name := pc.food.id, product := pc.food, unit := pc.unit,
      variable_gram := n, variable_unit_divided := n + 1 } :: expectedLeaves (n + 2) rest

/-- Specified linear terms of a nutrient sum over a run of leaves starting
at variable index `n`: `grams_i * (nutrient_per_100g_i / 100)`, an absent
micro nutrient contributing 0. -/
def scopeTerms (el : NutrientType) (n : ℕ) : List ProductConstraint → List (ℕ × ℚ)
  | [] => []
  | pc :: rest =>
    (n, ((pc.food.get_nutrient_amount el).getD 0) * (1 / 100)) :: scopeTerms el (n + 2) rest

/-- Specified inequality constraints of one nutrient constraint over given
terms: a ≥ constraint with right side `min` (0 when absent) always, and a ≤
constraint exactly when `max` is present. -/
def ncConstraints (terms : List (ℕ × ℚ)) (nc : NutrientConstraint) : List LinConstraint :=
  { terms := terms, op := .Ge, rhs := nc.min.getD 0 } ::
    (match nc.max with
     | some mx => [{ terms := terms, op := .Le, rhs := mx }]
     | none => [])

/-- Observable linear terms of one nutrient constraint over a list of
already-built entries (used by the intermediate compilation lemmas). -/
def termsOf (entries : List ProductEntry) (el : NutrientType) : List (ℕ × ℚ) :=
  (getAllProductVariablesList entries).map fun p =>
    (p.variable_gram, ((p.product.get_nutrient_amount el).getD 0) * (1 / 100))

/-- Specified constraint list of one meal whose first variable index is `n`:
the per-leaf equalities, then the meal-scoped nutrient constraints. -/
def expectedMealCs (n : ℕ) (m : MealConstraint) : List LinConstraint :=
  expectedEqs n m.products ++
    m.nutrients.flatMap fun nc => ncConstraints (scopeTerms nc.element n m.products) nc

/-- Specified constraint list of a run of meals starting at variable index
`n`. -/
def expectedMealsCs (n : ℕ) : List (String × MealConstraint) → List LinConstraint
  | [] => []
  | (_, m) :: rest => expectedMealCs n m ++ expectedMealsCs (n + 2 * m.products.length) rest

/-- All product constraints of a run of meals, in meal order. -/
def allMealPCs (meals : List (String × MealConstraint)) : List ProductConstraint :=
  meals.flatMap fun p => p.2.products

/-- All product constraints of a day plan, in meal order. -/
def dayProductConstraints (d : DayMealPlanConstraint) : List ProductConstraint :=
  allMealPCs d.meals

/-- Specified constraint list of a whole day: the meals' constraints, then
the day-scoped nutrient constraints ranging over every leaf of every
meal. -/
def expectedDayCs (d : DayMealPlanConstraint) : List LinConstraint :=
  expectedMealsCs 0 d.meals ++
    d.nutrients.flatMap fun nc =>
      ncConstraints (scopeTerms nc.element 0 (dayProductConstraints d)) nc

/-- Specified variable tree of a run of meals starting at variable index
`n`: one subcontainer per meal holding its leaves in order. -/
def expectedEntries (n : ℕ) : List (String × MealConstraint) → List ProductEntry
  | [] => []
  | (nm, m) :: rest =>
    .Subcontainer nm ((expectedLeaves n m.products).map .Variable) ::
      expectedEntries (n + 2 * m.products.length) rest

/-- Specified solution leaf for the product constraint whose grams variable
has index `n`: the solved grams value unchanged, and a fraction made of the
truncated solved unit-count over the requested unit's divider. -/
def leafSolutionEntry (vals : ℕ → ℚ) (pc : ProductConstraint) (n : ℕ) : SolutionEntry :=
  .Product pc.food (vals n) pc.unit
    ⟨float_to_u16 (vals (n + 1)), (leafUnitData pc).divider⟩

/-- Specified solution leaves of a run of product constraints starting at
variable index `n`. -/
def leafSolutions (vals : ℕ → ℚ) (n : ℕ) : List ProductConstraint → List SolutionEntry
  | [] => []
  | pc :: rest => leafSolutionEntry vals pc n :: leafSolutions vals (n + 2) rest

/-- Specified solution meals of a run of meals starting at variable index
`n`, in meal order. -/
def expectedMealSolutions (vals : ℕ → ℚ) (n : ℕ) :
    List (String × MealConstraint) → List SolutionEntry
  | [] => []
  | (nm, m) :: rest =>
    .Meal nm (leafSolutions vals n m.products) ::
      expectedMealSolutions vals (n + 2 * m.products.length) rest

/-- Specified inequality (≥/≤) constraints of a run of meals starting at
variable index `n`: for each meal, its nutrient constraints' inequality
pairs in order, over that meal's leaves. -/
def expectedMealsIneqs (n : ℕ) : List (String × MealConstraint) → List LinConstraint
  | [] => []
  | (_, m) :: rest =>
    (m.nutrients.flatMap fun nc => ncConstraints (scopeTerms nc.element n m.products) nc) ++
      expectedMealsIneqs (n + 2 * m.products.length) rest

/-- Specified inequality constraints of the day scope: one pair per
day-scoped nutrient constraint, over every leaf of every meal. -/
def expectedDayIneqs (d : DayMealPlanConstraint) : List LinConstraint :=
  d.nutrients.flatMap fun nc =>
    ncConstraints (scopeTerms nc.element 0 (dayProductConstraints d)) nc

/-- Product with 10 protein-per-100g, used in concrete compiler inputs. -/
def proteinProduct : Product :=
  Product.new "Powder" none (MacroElements.new 0 0 0 0 10) MicroNutrients.default []

/-- Concrete day plan with one meal, one product leaf and one meal-scoped
nutrient constraint whose minimum is absent (`min = none`, `max = 5`). -/
def dayMinAbsent : DayMealPlanConstraint :=
  { meals := [("Meal1",
      { products := [{ food := proteinProduct, low_bound := none, up_bound := none,
                       unit := .Gram }],
        nutrients := [{ element := .Macro .Protein, min := none, max := some 5 }] })],
    nutrients := [] }

/-- Concrete day plan with one meal, one bounded product leaf, one
meal-scoped and one day-scoped nutrient constraint. -/
def daySimple : DayMealPlanConstraint :=
  { meals := [("Breakfast",
      { products := [{ food := proteinProduct, low_bound := some 0, up_bound := some 200,
                       unit := .Gram }],
        nutrients := [{ element := .Macro .Protein, min := some 2, max := some 100 }] })],
    nutrients := [{ element := .Macro .Protein, min := some 1, max := none }] }

end MealPlanner

namespace MealPlanner

/-- The float-to-`u16` cast is the identity on naturals within range. -/
theorem float_to_u16_natCast (m : ℕ) (hm : m ≤ 65535) : float_to_u16 (m : ℚ) = m := by
  unfold float_to_u16
  rw [Int.floor_natCast]
  omega

/-- C6: `ProductConstraint::new(product, low, high, unit)` returns `None`
exactly when `unit` is absent from the product's allowed-unit table or when
both bounds are given and `low > high`; otherwise it returns `Some` of a
constraint holding exactly the given product, bounds and unit. -/
theorem product_constraint_new_validates (food : Product) (low up : Option ℕ)
    (unit : AllowedUnitsType) :
    (ProductConstraint.new food low up unit = none ↔
      food.allowed_units.get unit = none ∨
        ∃ lb ub, low = some lb ∧ up = some ub ∧ lb > ub) ∧
    (∀ c, ProductConstraint.new food low up unit = some c →
      c.food = food ∧ c.low_bound = low ∧ c.up_bound = up ∧ c.unit = unit) := by
  constructor
  · unfold ProductConstraint.new AllowedUnits.contains_key
    rcases hg : food.allowed_units.get unit with _ | ud
    · simp
    · simp only [hg, Option.isSome_some, if_true, reduceCtorEq, false_or]
      rcases low with _ | lb <;> rcases up with _ | ub <;> simp
  · intro c hc
    rcases low with _ | lb <;> rcases up with _ | ub <;>
      simp only [ProductConstraint.new] at hc
    · split at hc
      · injection hc with h; subst h; exact ⟨rfl, rfl, rfl, rfl⟩
      · cases hc
    · split at hc
      · injection hc with h; subst h; exact ⟨rfl, rfl, rfl, rfl⟩
      · cases hc
    · split at hc
      · injection hc with h; subst h; exact ⟨rfl, rfl, rfl, rfl⟩
      · cases hc
    · split at hc
      · split at hc
        · cases hc
        · injection hc with h; subst h; exact ⟨rfl, rfl, rfl, rfl⟩
      · cases hc

/-- Witness for C6 at a concrete input: a product whose table lacks `Cup`
makes the constructor fail, and a successful construction at `Gram`
preserves its fields. -/
theorem product_constraint_new_validates_witness :
    (ProductConstraint.new (Product.new "P" none (MacroElements.new 1 0 0 0 0)
        MicroNutrients.default []) (some 2) (some 5) .Cup = none) ∧
    (∀ c, ProductConstraint.new (Product.new "P" none (MacroElements.new 1 0 0 0 0)
        MicroNutrients.default []) (some 2) (some 5) .Gram = some c → c.low_bound = some 2) := by
  constructor
  · exact (product_constraint_new_validates _ _ _ _).1.mpr (Or.inl (by decide))
  · intro c hc
    exact ((product_constraint_new_validates _ _ _ _).2 c hc).2.1

/-- C7: `NutrientConstraint::new(target, min, max)` returns `None` exactly
when a given bound is negative or when both are given and `min > max`;
otherwise it returns `Some` preserving the fields — in particular
`min == max` (non-negative) is accepted. -/
theorem nutrient_constraint_new_validates (element : NutrientType) (min max : Option ℚ) :
    (NutrientConstraint.new element min max = none ↔
      (∃ m, min = some m ∧ m < 0) ∨ (∃ m, max = some m ∧ m < 0) ∨
        (∃ mn mx, min = some mn ∧ max = some mx ∧ mn > mx)) ∧
    (∀ c, NutrientConstraint.new element min max = some c →
      c.element = element ∧ c.min = min ∧ c.max = max) ∧
    (∀ m : ℚ, 0 ≤ m → NutrientConstraint.new element (some m) (some m) =
      some { element := element, min := some m, max := some m }) := by
  refine ⟨?_, ?_, ?_⟩
  · unfold NutrientConstraint.new
    rcases min with _ | mn <;> rcases max with _ | mx
    · simp
    · by_cases h2 : mx < 0 <;> simp [h2]
    · by_cases h1 : mn < 0 <;> simp [h1]
    · by_cases h1 : mn < 0 <;> by_cases h2 : mx < 0 <;> by_cases h3 : mn > mx <;>
        simp [h1, h2, h3]
  · intro c hc
    rcases min with _ | mn <;> rcases max with _ | mx <;>
      simp only [NutrientConstraint.new] at hc
    · injection hc with h; subst h; exact ⟨rfl, rfl, rfl⟩
    · split at hc
      · cases hc
      · injection hc with h; subst h; exact ⟨rfl, rfl, rfl⟩
    · split at hc
      · cases hc
      · injection hc with h; subst h; exact ⟨rfl, rfl, rfl⟩
    · split at hc
      · cases hc
      · split at hc
        · cases hc
        · split at hc
          · cases hc
          · injection hc with h; subst h; exact ⟨rfl, rfl, rfl⟩
  · intro m hm
    unfold NutrientConstraint.new
    simp [not_lt.mpr hm]

/-- Witness for C7 at concrete bounds: `min = max = 3` is accepted, a
negative minimum is rejected, and fields of a success are preserved. -/
theorem nutrient_constraint_new_validates_witness :
    (NutrientConstraint.new (.Macro .Fat) (some 3) (some 3) =
      some { element := .Macro .Fat, min := some 3, max := some 3 }) ∧
    (NutrientConstraint.new (.Macro .Fat) (some (-1)) (some 10) = none) := by
  constructor
  · exact (nutrient_constraint_new_validates (.Macro .Fat) (some 3) (some 3)).2.2 3 (by norm_num)
  · exact (nutrient_constraint_new_validates (.Macro .Fat) (some (-1)) (some 10)).1.mpr
      (Or.inl ⟨-1, rfl, by norm_num⟩)

/-- C9: every product built by `Product::new` maps the `Gram` unit to the
conversion rule `{amount: 1, divider: 1}` — a caller-supplied rule for
`Gram` is silently replaced. -/
theorem product_new_gram_unit (name : String) (brand : Option String)
    (me : MacroElements) (mn : MicroNutrients) (units : AllowedUnits) :
    (Product.new name brand me mn units).allowed_units.get .Gram = some ⟨1, 1⟩ := by
  show (units.insert .Gram ⟨1, 1⟩).get .Gram = some ⟨1, 1⟩
  simp [AllowedUnits.insert, AllowedUnits.get]


/-- C5 counterexample: for 70000 g of a 1-fat-per-100g product swapped
against an equal 1-fat-per-100g product the true equivalent amount is
70000, but the `u16` cast saturates the low bound at 65535 and the `u16`
increment wraps the high numerator to 0, so the result is `Ok((65535, 0))`:
`high == low + 1` fails and 70000 does not lie in the bracket. -/
theorem get_grams_of_swapped_product_overflow :
    ProductSwapper.get_grams_of_swapped_product swapProductOne 70000 swapProductTwo
      (.Macro .Fat) = .ok (65535, 0) ∧ (0 : ℕ) ≠ 65535 + 1 := by
  refine ⟨?_, by decide⟩
  have h1 : swapProductOne.get_nutrient_amount (.Macro .Fat) = some 1 := rfl
  have h2 : swapProductTwo.get_nutrient_amount (.Macro .Fat) = some 1 := rfl
  have h3 : AllowedUnits.get swapProductOne.allowed_units .Gram = some ⟨1, 1⟩ := rfl
  unfold ProductSwapper.get_grams_of_swapped_product
    ProductSwapper.get_amount_of_swapped_product
  rw [h1, h2, h3]
  norm_num [float_to_u16]
  rfl

/-- C5 (amended): for products carrying the target nutrient whose `Gram`
entry is the standard `{amount: 1, divider: 1}` (every `Product::new` value),
with the output per-100g value non-zero, whenever the true equivalent amount
`e = amount × in/out` lies in `[0, 65535)`, `get_grams_of_swapped_product`
returns `Ok((⌊e⌋, ⌊e⌋+1))` — so `high = low + 1` — and `e` lies in
`[low, high]`. -/
theorem get_grams_of_swapped_product_bracket (input output : Product)
    (amount a b e : ℚ) (nut : NutrientType)
    (hin : input.get_nutrient_amount nut = some a)
    (hout : output.get_nutrient_amount nut = some b)
    (hb : b ≠ 0)
    (hgram : input.allowed_units.get .Gram = some ⟨1, 1⟩)
    (he : e = amount * a / b)
    (he0 : 0 ≤ e) (he1 : e < 65535) :
    ProductSwapper.get_grams_of_swapped_product input amount output nut =
      .ok (⌊e⌋.toNat, ⌊e⌋.toNat + 1) ∧
    ((⌊e⌋.toNat : ℚ) ≤ e ∧ e ≤ (⌊e⌋.toNat : ℚ) + 1) := by
  have hz0 : 0 ≤ ⌊e⌋ := Int.floor_nonneg.mpr he0
  have hz1 : ⌊e⌋ < 65535 := by
    have hfe : (⌊e⌋ : ℚ) ≤ e := Int.floor_le e
    exact_mod_cast lt_of_le_of_lt hfe he1
  have hcast : ((⌊e⌋.toNat : ℚ)) = ((⌊e⌋ : ℤ) : ℚ) := by
    exact_mod_cast congrArg (fun z : ℤ => (z : ℚ)) (Int.toNat_of_nonneg hz0)
  have hlow : float_to_u16 (e * ((1 : ℕ) : ℚ) / ((1 : ℕ) : ℚ)) = ⌊e⌋.toNat := by
    rw [Nat.cast_one, mul_one, div_one]
    unfold float_to_u16
    omega
  have hmod : (⌊e⌋.toNat + 1) % 65536 = ⌊e⌋.toNat + 1 := by omega
  have hamount : ProductSwapper.get_amount_of_swapped_product input amount output nut .Gram =
      .ok (⟨⌊e⌋.toNat, 1⟩, ⟨⌊e⌋.toNat + 1, 1⟩) := by
    unfold ProductSwapper.get_amount_of_swapped_product
    rw [hin, hout, hgram]
    simp only [← he]
    rw [hlow, hmod]
  refine ⟨?_, ?_, ?_⟩
  · unfold ProductSwapper.get_grams_of_swapped_product
    rw [hamount]
    simp only [Nat.cast_one, div_one, Int.floor_natCast, Int.ceil_natCast, Int.cast_natCast]
    rw [float_to_u16_natCast _ (by omega), float_to_u16_natCast _ (by omega)]
  · rw [hcast]; exact Int.floor_le e
  · rw [hcast]
    have := Int.lt_floor_add_one e
    push_cast at this
    linarith

/-- Witness for C5 (amended) at the spec's own example: 55 g of a product
with 91 fat-per-100g swapped for a product with 3 fat-per-100g over the Fat
macro yields the bracket `(1668, 1669)` and `5005/3 ∈ [1668, 1669]`. -/
theorem get_grams_of_swapped_product_bracket_witness :
    ProductSwapper.get_grams_of_swapped_product
      (Product.new "Olive" none (MacroElements.new 91 0 0 0 0) MicroNutrients.default [])
      55
      (Product.new "Milk" none (MacroElements.new 3 0 0 0 0) MicroNutrients.default [])
      (.Macro .Fat) = .ok (1668, 1669) := by
  have h := get_grams_of_swapped_product_bracket
    (Product.new "Olive" none (MacroElements.new 91 0 0 0 0) MicroNutrients.default [])
    (Product.new "Milk" none (MacroElements.new 3 0 0 0 0) MicroNutrients.default [])
    55 91 3 (55 * 91 / 3) (.Macro .Fat)
    rfl rfl (by norm_num) rfl rfl (by norm_num) (by norm_num)
  have hfloor : (⌊(55 * 91 / 3 : ℚ)⌋).toNat = 1668 := by
    have hf : ⌊(55 * 91 / 3 : ℚ)⌋ = 1668 := by
      rw [Int.floor_eq_iff]
      norm_num
    rw [hf]
    rfl
  rw [hfloor] at h
  exact h.1

/-- C8: `get_amount_of_swapped_product` fails with a message naming the
offending product's id and the missing item in exactly three cases — input
lacks the target nutrient, output lacks the target nutrient, input lacks the
requested allowed unit — and in every other case returns `Ok` with a
complete `(low, high)` fraction bracket. -/
theorem get_amount_of_swapped_product_errors (input output : Product) (amount : ℚ)
    (nut : NutrientType) (unit : AllowedUnitsType) :
    (input.get_nutrient_amount nut = none →
      ProductSwapper.get_amount_of_swapped_product input amount output nut unit =
        .error ("Input product '" ++ input.id ++ "' does not have nutrient '" ++
          nut.debugStr ++ "'")) ∧
    (input.get_nutrient_amount nut ≠ none → output.get_nutrient_amount nut = none →
      ProductSwapper.get_amount_of_swapped_product input amount output nut unit =
        .error ("Output product '" ++ output.id ++ "' does not have nutrient '" ++
          nut.debugStr ++ "'")) ∧
    (input.get_nutrient_amount nut ≠ none → output.get_nutrient_amount nut ≠ none →
      input.allowed_units.get unit = none →
      ProductSwapper.get_amount_of_swapped_product input amount output nut unit =
        .error ("Input product '" ++ input.id ++ "' does not have allowed unit '" ++
          unit.debugStr ++ "'")) ∧
    (input.get_nutrient_amount nut ≠ none → output.get_nutrient_amount nut ≠ none →
      input.allowed_units.get unit ≠ none →
      ∃ low high, ProductSwapper.get_amount_of_swapped_product input amount output nut unit =
        .ok (low, high) ∧ high.denominator = low.denominator) := by
  refine ⟨?_, ?_, ?_, ?_⟩
  · intro h0
    unfold ProductSwapper.get_amount_of_swapped_product
    rw [h0]
  · intro h0 h1
    rcases Option.ne_none_iff_exists'.mp h0 with ⟨a, ha⟩
    unfold ProductSwapper.get_amount_of_swapped_product
    rw [ha, h1]
  · intro h0 h1 h2
    rcases Option.ne_none_iff_exists'.mp h0 with ⟨a, ha⟩
    rcases Option.ne_none_iff_exists'.mp h1 with ⟨b, hb⟩
    unfold ProductSwapper.get_amount_of_swapped_product
    rw [ha, hb, h2]
  · intro h0 h1 h2
    rcases Option.ne_none_iff_exists'.mp h0 with ⟨a, ha⟩
    rcases Option.ne_none_iff_exists'.mp h1 with ⟨b, hb⟩
    rcases Option.ne_none_iff_exists'.mp h2 with ⟨ud, hud⟩
    unfold ProductSwapper.get_amount_of_swapped_product
    rw [ha, hb, hud]
    exact ⟨_, _, rfl, rfl⟩

/-- Witness for C8 at concrete inputs: a missing micro nutrient on the input
product yields the exact input-nutrient error message, and a fully present
configuration yields an `Ok` bracket. -/
theorem get_amount_of_swapped_product_errors_witness :
    (ProductSwapper.get_amount_of_swapped_product swapProductOne 10 swapProductTwo
      (.Micro .Fiber) .Gram =
        .error "Input product 'SwapIn' does not have nutrient 'Micro(Fiber)'") ∧
    (∃ low high, ProductSwapper.get_amount_of_swapped_product swapProductOne 10 swapProductTwo
      (.Macro .Fat) .Gram = .ok (low, high) ∧ high.denominator = low.denominator) := by
  constructor
  · have h := (get_amount_of_swapped_product_errors swapProductOne swapProductTwo 10
      (.Micro .Fiber) .Gram).1 rfl
    rw [h]
    rfl
  · exact (get_amount_of_swapped_product_errors swapProductOne swapProductTwo 10
      (.Macro .Fat) .Gram).2.2.2 (by simp [swapProductOne, Product.new,
        Product.get_nutrient_amount, MacroElements.new, MacroElements.get])
      (by simp [swapProductTwo, Product.new, Product.get_nutrient_amount,
        MacroElements.new, MacroElements.get])
      (by simp [swapProductOne, Product.new, AllowedUnits.insert, AllowedUnits.get])

/-- Flattening a list of plain leaf entries returns exactly those leaves. -/
theorem getAll_map_variable (l : List ProductVariable) :
    getAllProductVariablesList (l.map .Variable) = l := by
  induction l with
  | nil => rfl
  | cons v rest ih =>
    simp [getAllProductVariablesList, ProductEntry.get_all_product_variables, ih]

/-- Length of the specified variable list: two variables per leaf. -/
theorem expectedVars_length (nut : NutrientType) (pcs : List ProductConstraint) :
    (expectedVars nut pcs).length = 2 * pcs.length := by
  induction pcs with
  | nil => rfl
  | cons pc rest ih => simp [expectedVars, ih]; omega

/-- The specified variable list distributes over concatenation. -/
theorem expectedVars_append (nut : NutrientType) (l1 l2 : List ProductConstraint) :
    expectedVars nut (l1 ++ l2) = expectedVars nut l1 ++ expectedVars nut l2 := by
  induction l1 with
  | nil => rfl
  | cons pc rest ih => simp [expectedVars, ih]

/-- The specified nutrient terms distribute over concatenation, the second
run starting two variable indices per leaf later. -/
theorem scopeTerms_append (el : NutrientType) (n : ℕ) (l1 l2 : List ProductConstraint) :
    scopeTerms el n (l1 ++ l2) =
      scopeTerms el n l1 ++ scopeTerms el (n + 2 * l1.length) l2 := by
  induction l1 generalizing n with
  | nil => simp [scopeTerms]
  | cons pc rest ih =>
    have h2 : n + 2 + 2 * rest.length = n + 2 * (rest.length + 1) := by ring
    simp only [List.cons_append, scopeTerms, List.length_cons, List.append_eq, ih, h2]

/-- The observable nutrient terms of a run of plain leaf entries are the
specified ones. -/
theorem termsOf_map_variable (el : NutrientType) (n : ℕ) (pcs : List ProductConstraint) :
    termsOf ((expectedLeaves n pcs).map .Variable) el = scopeTerms el n pcs := by
  unfold termsOf
  rw [getAll_map_variable]
  induction pcs generalizing n with
  | nil => rfl
  | cons pc rest ih =>
    simp only [expectedLeaves, List.map_cons, scopeTerms]
    rw [ih]

/-- The observable nutrient terms of a specified meal run are the specified
terms over all its leaves. -/
theorem termsOf_expectedEntries (el : NutrientType) (n : ℕ)
    (meals : List (String × MealConstraint)) :
    termsOf (expectedEntries n meals) el = scopeTerms el n (allMealPCs meals) := by
  induction meals generalizing n with
  | nil => rfl
  | cons hd rest ih =>
    rcases hd with ⟨nm, m⟩
    have hsub : termsOf (expectedEntries n ((nm, m) :: rest)) el =
        termsOf ((expectedLeaves n m.products).map .Variable) el ++
          termsOf (expectedEntries (n + 2 * m.products.length) rest) el := by
      unfold termsOf
      simp [expectedEntries, getAllProductVariablesList,
        ProductEntry.get_all_product_variables, getAll_map_variable]
    rw [hsub, termsOf_map_variable, ih]
    have hpcs : allMealPCs ((nm, m) :: rest) = m.products ++ allMealPCs rest := by
      simp [allMealPCs]
    rw [hpcs, scopeTerms_append]

/-- One leaf compilation appends exactly the two specified variables and the
one specified equality constraint, and returns the specified leaf record. -/
theorem add_product_constraints_spec (s : ConstraintsSolver) (pc : ProductConstraint) :
    s.add_product_constraints pc.food pc =
      ({ s with problem :=
          { s.problem with
            vars := s.problem.vars ++ [gramVarData s.nutrient_to_optimize pc, unitVarData]
            constraints := s.problem.constraints ++
              [leafEqConstraint s.problem.vars.length pc] } },
       { name := pc.food.id
         product := pc.food
         unit := pc.unit
         variable_gram := s.problem.vars.length
         variable_unit_divided := s.problem.vars.length + 1 }) := by
  unfold ConstraintsSolver.add_product_constraints Problem.add_var Problem.add_integer_var
    Problem.add_constraint gramVarData unitVarData leafEqConstraint leafUnitData
  simp

/-- One nutrient compilation appends exactly the specified ≥ constraint and,
when `max` is present, the specified ≤ constraint, over the observable terms
of the scope's entries. -/
theorem add_nutrient_constraints_spec (s : ConstraintsSolver) (nc : NutrientConstraint)
    (entries : List ProductEntry) :
    s.add_nutrient_constraints nc entries =
      { s with problem :=
          { s.problem with
            constraints := s.problem.constraints ++
              ncConstraints (termsOf entries nc.element) nc } } := by
  unfold ConstraintsSolver.add_nutrient_constraints Problem.add_constraint ncConstraints termsOf
  cases hm : nc.max <;> simp [hm]

/-- The nutrient loop appends the specified constraints of each nutrient
constraint in order, over the fixed entries of the scope. -/
theorem add_nutrients_loop_spec (ncs : List NutrientConstraint) (s : ConstraintsSolver)
    (entries : List ProductEntry) :
    s.add_nutrients_loop ncs entries =
      { s with problem :=
          { s.problem with
            constraints := s.problem.constraints ++
              ncs.flatMap fun nc => ncConstraints (termsOf entries nc.element) nc } } := by
  induction ncs generalizing s with
  | nil => simp [ConstraintsSolver.add_nutrients_loop]
  | cons nc rest ih =>
    simp only [ConstraintsSolver.add_nutrients_loop]
    rw [add_nutrient_constraints_spec, ih]
    simp [List.append_assoc]

/-- The product loop of a meal appends the specified variables and equality
constraints of its leaves, and collects the specified leaf entries. -/
theorem add_meal_products_spec (pcs : List ProductConstraint) (s : ConstraintsSolver) :
    s.add_meal_products pcs =
      ({ s with problem :=
          { s.problem with
            vars := s.problem.vars ++ expectedVars s.nutrient_to_optimize pcs
            constraints := s.problem.constraints ++ expectedEqs s.problem.vars.length pcs } },
       (expectedLeaves s.problem.vars.length pcs).map .Variable) := by
  induction pcs generalizing s with
  | nil => simp [ConstraintsSolver.add_meal_products, expectedVars, expectedEqs, expectedLeaves]
  | cons pc rest ih =>
    simp only [ConstraintsSolver.add_meal_products]
    rw [add_product_constraints_spec, ih]
    simp [expectedVars, expectedEqs, expectedLeaves, List.append_assoc]

/-- One meal compilation appends its leaves' variables and the specified
meal constraint list (equalities, then meal-scoped nutrient constraints over
exactly this meal's leaves). -/
theorem add_meal_constraints_spec (s : ConstraintsSolver) (m : MealConstraint) :
    s.add_meal_constraints m =
      ({ s with problem :=
          { s.problem with
            vars := s.problem.vars ++ expectedVars s.nutrient_to_optimize m.products
            constraints := s.problem.constraints ++
              expectedMealCs s.problem.vars.length m } },
       (expectedLeaves s.problem.vars.length m.products).map .Variable) := by
  unfold ConstraintsSolver.add_meal_constraints
  simp only [add_meal_products_spec, add_nutrients_loop_spec]
  simp only [expectedMealCs, List.append_assoc, termsOf_map_variable]

/-- The meal loop appends all meals' variables and constraint lists in
order, and collects one specified subcontainer per meal. -/
theorem add_meals_loop_spec (meals : List (String × MealConstraint)) (s : ConstraintsSolver) :
    s.add_meals_loop meals =
      ({ s with problem :=
          { s.problem with
            vars := s.problem.vars ++ expectedVars s.nutrient_to_optimize (allMealPCs meals)
            constraints := s.problem.constraints ++
              expectedMealsCs s.problem.vars.length meals } },
       expectedEntries s.problem.vars.length meals) := by
  induction meals generalizing s with
  | nil =>
    simp [ConstraintsSolver.add_meals_loop, allMealPCs, expectedMealsCs, expectedEntries,
      expectedVars]
  | cons hd rest ih =>
    rcases hd with ⟨nm, m⟩
    simp only [ConstraintsSolver.add_meals_loop]
    rw [add_meal_constraints_spec, ih]
    have hlen : (expectedVars s.nutrient_to_optimize m.products).length =
        2 * m.products.length := expectedVars_length _ _
    have hpcs : allMealPCs ((nm, m) :: rest) = m.products ++ allMealPCs rest := by
      simp [allMealPCs]
    simp only [hpcs, expectedVars_append, List.append_assoc, List.length_append, hlen,
      expectedMealsCs, expectedEntries]

/-- Day compilation appends all meals' contributions then the day-scoped
nutrient constraints over every leaf of every meal, and returns the meal
subcontainers. -/
theorem create_day_constraints_spec (s : ConstraintsSolver) (d : DayMealPlanConstraint) :
    s.create_day_constraints d =
      ({ s with problem :=
          { s.problem with
            vars := s.problem.vars ++ expectedVars s.nutrient_to_optimize (dayProductConstraints d)
            constraints := s.problem.constraints ++
              (expectedMealsCs s.problem.vars.length d.meals ++
                d.nutrients.flatMap fun nc =>
                  ncConstraints
                    (scopeTerms nc.element s.problem.vars.length (dayProductConstraints d))
                    nc) } },
       expectedEntries s.problem.vars.length d.meals) := by
  unfold ConstraintsSolver.create_day_constraints
  simp only [add_meals_loop_spec, add_nutrients_loop_spec]
  simp only [dayProductConstraints, List.append_assoc, termsOf_expectedEntries]

/-- Master characterization: compiling a day plan from a fresh solver yields
exactly the specified problem (variables and constraints) and the specified
variable tree, a single "Day1" subcontainer under the root. -/
theorem create_constraints_spec (mm : MinOrMax) (nut : NutrientType)
    (d : DayMealPlanConstraint) :
    (ConstraintsSolver.new mm nut).create_constraints d =
      { problem :=
          { direction := mm.direction
            vars := expectedVars nut (dayProductConstraints d)
            constraints := expectedDayCs d }
        vtree := { name := "root", inner := [.Subcontainer "Day1" (expectedEntries 0 d.meals)] }
        nutrient_to_optimize := nut } := by
  unfold ConstraintsSolver.create_constraints
  rw [create_day_constraints_spec]
  simp [ConstraintsSolver.new, Problem.new, expectedDayCs]

/-- The specified equality constraints distribute over concatenation. -/
theorem expectedEqs_append (n : ℕ) (l1 l2 : List ProductConstraint) :
    expectedEqs n (l1 ++ l2) = expectedEqs n l1 ++ expectedEqs (n + 2 * l1.length) l2 := by
  induction l1 generalizing n with
  | nil => simp [expectedEqs]
  | cons pc rest ih =>
    have h2 : n + 2 + 2 * rest.length = n + 2 * (rest.length + 1) := by ring
    simp only [List.cons_append, expectedEqs, List.length_cons, List.append_eq, ih, h2]

/-- Every specified per-leaf constraint is an equality. -/
theorem filter_isEqC_expectedEqs (n : ℕ) (pcs : List ProductConstraint) :
    (expectedEqs n pcs).filter LinConstraint.isEqC = expectedEqs n pcs := by
  induction pcs generalizing n with
  | nil => rfl
  | cons pc rest ih => simp [expectedEqs, List.filter_cons, leafEqConstraint,
      LinConstraint.isEqC, ih]

/-- No specified per-leaf constraint is an inequality. -/
theorem filter_not_isEqC_expectedEqs (n : ℕ) (pcs : List ProductConstraint) :
    (expectedEqs n pcs).filter (fun c => ! c.isEqC) = [] := by
  induction pcs generalizing n with
  | nil => rfl
  | cons pc rest ih =>
    have hneg : (! (leafEqConstraint n pc).isEqC) = false := rfl
    rw [show expectedEqs n (pc :: rest) = leafEqConstraint n pc :: expectedEqs (n + 2) rest
          from rfl,
        List.filter_cons, hneg]
    simpa using ih (n + 2)

/-- No specified nutrient constraint is an equality. -/
theorem filter_isEqC_ncConstraints (t : List (ℕ × ℚ)) (nc : NutrientConstraint) :
    (ncConstraints t nc).filter LinConstraint.isEqC = [] := by
  cases hm : nc.max <;> simp [ncConstraints, hm, List.filter_cons, LinConstraint.isEqC]

/-- Every specified nutrient constraint is an inequality. -/
theorem filter_not_isEqC_ncConstraints (t : List (ℕ × ℚ)) (nc : NutrientConstraint) :
    (ncConstraints t nc).filter (fun c => ! c.isEqC) = ncConstraints t nc := by
  cases hm : nc.max <;> simp [ncConstraints, hm, List.filter_cons, LinConstraint.isEqC]

/-- A scope's nutrient-constraint block contains no equality. -/
theorem filter_isEqC_flatMap_nc (ncs : List NutrientConstraint)
    (f : NutrientConstraint → List (ℕ × ℚ)) :
    ((ncs.flatMap fun nc => ncConstraints (f nc) nc).filter LinConstraint.isEqC) = [] := by
  induction ncs with
  | nil => rfl
  | cons nc rest ih => simp [List.flatMap_cons, List.filter_append, ih,
      filter_isEqC_ncConstraints]

/-- A scope's nutrient-constraint block is all inequalities. -/
theorem filter_not_isEqC_flatMap_nc (ncs : List NutrientConstraint)
    (f : NutrientConstraint → List (ℕ × ℚ)) :
    ((ncs.flatMap fun nc => ncConstraints (f nc) nc).filter fun c => ! c.isEqC) =
      ncs.flatMap fun nc => ncConstraints (f nc) nc := by
  induction ncs with
  | nil => rfl
  | cons nc rest ih => simp [List.flatMap_cons, List.filter_append, ih,
      filter_not_isEqC_ncConstraints]

/-- The equality constraints of a run of meals are exactly the specified
per-leaf equalities over all their leaves. -/
theorem filter_isEqC_expectedMealsCs (n : ℕ) (meals : List (String × MealConstraint)) :
    (expectedMealsCs n meals).filter LinConstraint.isEqC = expectedEqs n (allMealPCs meals) := by
  induction meals generalizing n with
  | nil => rfl
  | cons hd rest ih =>
    rcases hd with ⟨nm, m⟩
    have hpcs : allMealPCs ((nm, m) :: rest) = m.products ++ allMealPCs rest := by
      simp [allMealPCs]
    rw [hpcs, expectedEqs_append]
    simp [expectedMealsCs, expectedMealCs, List.filter_append, filter_isEqC_expectedEqs,
      filter_isEqC_flatMap_nc, ih]

/-- The inequality constraints of a run of meals are exactly the specified
per-meal nutrient blocks. -/
theorem filter_not_isEqC_expectedMealsCs (n : ℕ) (meals : List (String × MealConstraint)) :
    ((expectedMealsCs n meals).filter fun c => ! c.isEqC) = expectedMealsIneqs n meals := by
  induction meals generalizing n with
  | nil => rfl
  | cons hd rest ih =>
    rcases hd with ⟨nm, m⟩
    simp [expectedMealsCs, expectedMealCs, expectedMealsIneqs, List.filter_append,
      filter_not_isEqC_expectedEqs, filter_not_isEqC_flatMap_nc, ih]

/-- C1: for every compiled day plan, each product leaf gets a continuous
grams variable bounded by `[low_bound or 0, high_bound or 65535]`, an
integer unit-count variable bounded `[0, 65535]` (that is the variable list,
per leaf in order), and exactly one equality constraint
`unit_count * (amount × divider) − grams = 0` whose coefficients come from
the product's allowed-unit entry for the constraint's requested unit (the
equality-constraint list has exactly one entry per leaf, in order). -/
theorem compiler_product_leaf_encoding (mm : MinOrMax) (nut : NutrientType)
    (d : DayMealPlanConstraint)
    (_hwf : ∀ pc ∈ dayProductConstraints d, (pc.food.allowed_units.get pc.unit).isSome) :
    ((ConstraintsSolver.new mm nut).create_constraints d).problem.vars =
        expectedVars nut (dayProductConstraints d) ∧
    ((ConstraintsSolver.new mm nut).create_constraints d).problem.constraints.filter
        LinConstraint.isEqC = expectedEqs 0 (dayProductConstraints d) := by
  rw [create_constraints_spec]
  refine ⟨rfl, ?_⟩
  simp only [expectedDayCs, List.filter_append, filter_isEqC_expectedMealsCs,
    filter_isEqC_flatMap_nc, List.append_nil, dayProductConstraints]

/-- Witness for C1 at a concrete one-meal day plan. -/
theorem compiler_product_leaf_encoding_witness :
    (∀ pc ∈ dayProductConstraints daySimple, (pc.food.allowed_units.get pc.unit).isSome) ∧
    (((ConstraintsSolver.new .Min (.Macro .Protein)).create_constraints daySimple).problem.vars =
        expectedVars (.Macro .Protein) (dayProductConstraints daySimple) ∧
      ((ConstraintsSolver.new .Min (.Macro .Protein)).create_constraints
          daySimple).problem.constraints.filter LinConstraint.isEqC =
        expectedEqs 0 (dayProductConstraints daySimple)) :=
  ⟨by decide, compiler_product_leaf_encoding .Min (.Macro .Protein) daySimple (by decide)⟩

/-- C2 counterexample: in `dayMinAbsent` every nutrient constraint (there is
exactly one, meal-scoped, with `min = none`, `max = 5`) lacks a minimum, yet
the compiled problem contains one ≥ inequality — the compiler emits
`≥ min.unwrap_or(0)` unconditionally, so "adds a ≥ inequality only if min is
present" is false. -/
theorem nutrient_ge_added_without_min :
    ((((ConstraintsSolver.new .Min (.Macro .Protein)).create_constraints
        dayMinAbsent).problem.constraints.filter LinConstraint.isGeC).length = 1) ∧
    (dayMinAbsent.meals.map fun p => p.2.nutrients.map fun nc => nc.min) = [[none]] ∧
    dayMinAbsent.nutrients = [] := by
  refine ⟨?_, by decide, rfl⟩
  rw [create_constraints_spec]
  decide

/-- C2 (amended): for every nutrient constraint attached at a meal or day
scope, the compiler always adds a ≥ inequality — with right-hand side `min`
when present and 0 when absent — and adds a ≤ `max` inequality exactly when
`max` is present, each over the sum of `grams_i × (nutrient_per_100g_i /
100)` over every product leaf in that scope (a day-scoped constraint ranges
over the leaves of every meal of the day), a product without the
micro-nutrient contributing 0. -/
theorem compiler_nutrient_inequalities (mm : MinOrMax) (nut : NutrientType)
    (d : DayMealPlanConstraint) :
    (((ConstraintsSolver.new mm nut).create_constraints d).problem.constraints.filter
        fun c => ! c.isEqC) =
      expectedMealsIneqs 0 d.meals ++ expectedDayIneqs d := by
  rw [create_constraints_spec]
  simp only [expectedDayCs, List.filter_append, filter_not_isEqC_expectedMealsCs,
    filter_not_isEqC_flatMap_nc, expectedDayIneqs]

/-- Extracting a run of specified leaves yields the specified solution
leaves. -/
theorem leaves_output (vals : ℕ → ℚ) (n : ℕ) (pcs : List ProductConstraint) :
    ((expectedLeaves n pcs).map .Variable).map (productEntryToProductOutput vals) =
      leafSolutions vals n pcs := by
  induction pcs generalizing n with
  | nil => rfl
  | cons pc rest ih =>
    simp only [expectedLeaves, List.map_cons, productEntryToProductOutput, leafSolutions,
      leafSolutionEntry, leafUnitData]
    rw [ih]

/-- Extracting a run of specified meal subcontainers yields the specified
solution meals. -/
theorem meals_output (vals : ℕ → ℚ) (n : ℕ) (meals : List (String × MealConstraint)) :
    (expectedEntries n meals).map (productEntryToMealOutput vals) =
      expectedMealSolutions vals n meals := by
  induction meals generalizing n with
  | nil => rfl
  | cons hd rest ih =>
    rcases hd with ⟨nm, m⟩
    simp only [expectedEntries, List.map_cons, productEntryToMealOutput,
      expectedMealSolutions]
    rw [leaves_output, ih]

/-- C3: `solve_day` classifies the solver's outcome — `Err` with exactly
"Constraints are infeasible" on infeasibility, `Err` with exactly "Problem
is unbounded" on unboundedness, `Err` with the formatted debug message on
any other solver failure, and `Ok` with the extracted solution exactly when
the solver returns an optimal assignment; never a partial result. -/
theorem solve_day_outcome_classification (mm : MinOrMax) (nut : NutrientType)
    (d : DayMealPlanConstraint) (solver : Problem → Except SolverError (ℕ → ℚ)) :
    (solver ((ConstraintsSolver.new mm nut).create_constraints d).problem =
        .error .Infeasible →
      (ConstraintsSolver.new mm nut).solve_day d solver =
        .error "Constraints are infeasible") ∧
    (solver ((ConstraintsSolver.new mm nut).create_constraints d).problem =
        .error .Unbounded →
      (ConstraintsSolver.new mm nut).solve_day d solver = .error "Problem is unbounded") ∧
    (∀ dbg, solver ((ConstraintsSolver.new mm nut).create_constraints d).problem =
        .error (.Other dbg) →
      (ConstraintsSolver.new mm nut).solve_day d solver =
        .error ("Solving error: " ++ dbg)) ∧
    (∀ vals, solver ((ConstraintsSolver.new mm nut).create_constraints d).problem =
        .ok vals →
      (ConstraintsSolver.new mm nut).solve_day d solver =
        .ok (((ConstraintsSolver.new mm nut).create_constraints d).solver_solution_to_output
          vals)) ∧
    ((∃ sol, (ConstraintsSolver.new mm nut).solve_day d solver = .ok sol) ↔
      (∃ vals, solver ((ConstraintsSolver.new mm nut).create_constraints d).problem =
        .ok vals)) := by
  have hs : (ConstraintsSolver.new mm nut).solve_day d solver =
      match solver ((ConstraintsSolver.new mm nut).create_constraints d).problem with
      | .ok sol =>
        .ok (((ConstraintsSolver.new mm nut).create_constraints d).solver_solution_to_output
          sol)
      | .error .Infeasible => .error "Constraints are infeasible"
      | .error .Unbounded => .error "Problem is unbounded"
      | .error (.Other dbg) => .error ("Solving error: " ++ dbg) := rfl
  refine ⟨?_, ?_, ?_, ?_, ?_⟩
  · intro h; rw [hs, h]
  · intro h; rw [hs, h]
  · intro dbg h; rw [hs, h]
  · intro vals h; rw [hs, h]
  · constructor
    · rintro ⟨sol, hsol⟩
      rw [hs] at hsol
      cases h2 : solver ((ConstraintsSolver.new mm nut).create_constraints d).problem with
      | ok vals => exact ⟨vals, rfl⟩
      | error e => rw [h2] at hsol; cases e <;> simp at hsol
    · rintro ⟨vals, hv⟩
      exact ⟨_, by rw [hs, hv]⟩

/-- Witness for C3 at a concrete day plan and a solver reporting
infeasibility. -/
theorem solve_day_outcome_classification_witness :
    (fun _ : Problem => (.error .Infeasible : Except SolverError (ℕ → ℚ)))
        ((ConstraintsSolver.new .Min (.Macro .Protein)).create_constraints daySimple).problem =
      .error .Infeasible ∧
    (ConstraintsSolver.new .Min (.Macro .Protein)).solve_day daySimple
        (fun _ => .error .Infeasible) = .error "Constraints are infeasible" :=
  ⟨rfl, (solve_day_outcome_classification .Min (.Macro .Protein) daySimple
      (fun _ => .error .Infeasible)).1 rfl⟩

/-- C4: on solver success, `solve_day` returns a `Solution` that is a single
`Week` node containing exactly one `Day` node named "Day1"; each meal
appears as a `Meal` node in build order and every product leaf carries the
solved grams value unchanged and a `Fraction` whose numerator is the solved
unit-count value truncated to `u16` and whose denominator is the requested
unit's divider from the product's allowed-unit table. -/
theorem solve_day_success_output (mm : MinOrMax) (nut : NutrientType)
    (d : DayMealPlanConstraint) (solver : Problem → Except SolverError (ℕ → ℚ))
    (vals : ℕ → ℚ)
    (_hwf : ∀ pc ∈ dayProductConstraints d, (pc.food.allowed_units.get pc.unit).isSome)
    (hs : solver ((ConstraintsSolver.new mm nut).create_constraints d).problem = .ok vals) :
    (ConstraintsSolver.new mm nut).solve_day d solver =
      .ok { solution := .Week [.Day "Day1" (expectedMealSolutions vals 0 d.meals)] } := by
  have h0 : (ConstraintsSolver.new mm nut).solve_day d solver =
      match solver ((ConstraintsSolver.new mm nut).create_constraints d).problem with
      | .ok sol =>
        .ok (((ConstraintsSolver.new mm nut).create_constraints d).solver_solution_to_output
          sol)
      | .error .Infeasible => .error "Constraints are infeasible"
      | .error .Unbounded => .error "Problem is unbounded"
      | .error (.Other dbg) => .error ("Solving error: " ++ dbg) := rfl
  rw [h0, hs]
  rw [create_constraints_spec]
  unfold ConstraintsSolver.solver_solution_to_output
  simp only [List.map_cons, List.map_nil, productEntryToDayOutput]
  rw [meals_output]

/-- Witness for C4 at a concrete day plan and a constant solved
assignment. -/
theorem solve_day_success_output_witness :
    (∀ pc ∈ dayProductConstraints daySimple, (pc.food.allowed_units.get pc.unit).isSome) ∧
    (ConstraintsSolver.new .Min (.Macro .Protein)).solve_day daySimple
        (fun _ => .ok fun _ => 50) =
      .ok { solution := .Week [.Day "Day1"
        (expectedMealSolutions (fun _ => 50) 0 daySimple.meals)] } :=
  ⟨by decide, solve_day_success_output .Min (.Macro .Protein) daySimple
    (fun _ => .ok fun _ => 50) (fun _ => 50) (by decide) rfl⟩
